import Mathlib

/-!
Verification of the box-grouping pipeline of `src/project1.py`.

The program post-processes OCR detections: it groups nearby detected text
boxes into lines (`group_text_boxes`), merges lines into paragraphs
(`check_paragraph`), merges boxes (`merge_boxes`), and resolves mouse clicks
to copyable text (`mouse_callback`).

Embedding conventions:
- Coordinates are integers (`Int`). A Python box is a list of four corner
  points in the order top-left, top-right, bottom-right, bottom-left; it is
  embedded as a structure with fields `p0 .. p3`, so `box[i][0]` becomes
  `(Box.p i).1` and `box[i][1]` becomes `(Box.p i).2`.
- Python strings are Lean `String`s; `s1 + " " + s2` becomes
  `s1 ++ " " ++ s2` and `str.lower()` is modelled by mapping
  `Char.toLower` over the character data.
- `check_paragraph` raises `IndexError` on an empty input list
  (`grouped_texts[0]`); the embedding returns `Option`, with `none` for the
  raised exception.
- In-place mutation of the caller's lists (`results.sort(...)` inside
  `group_text_boxes`, and the aliasing of `boxes[0]` with
  `grouped_texts[0]` inside `check_paragraph`) is modelled by explicit
  "state after the call" functions `group_text_boxes_inputAfter` and
  `check_paragraph_inputAfter`.
-/

namespace Project1

/-- A text box: four corner points (top-left, top-right, bottom-right,
bottom-left), each an `(x, y)` pair of integer pixel coordinates.
Mirrors the `box` lists of `project1.py`; any four-corner input is
representable, well-formedness is not enforced by the type. -/
structure Box where
  p0 : Int × Int
  p1 : Int × Int
  p2 : Int × Int
  p3 : Int × Int
deriving Repr, DecidableEq

/-- One OCR detection as consumed by `group_text_boxes`: the code uses only
`result[:2]`, i.e. the box and the text (the trailing confidence component
is dropped by the slice and never read, so it is omitted here). -/
structure Detection where
  box : Box
  text : String
deriving Repr, DecidableEq

/-- A group produced by the pipeline: a Python 2-element list
`[box, text]` holding the current merged box and the accumulated text. -/
structure TextGroup where
  box : Box
  text : String
deriving Repr, DecidableEq

/-- Default `x_threshold` of `group_text_boxes` (line 43). -/
def x_threshold_default : Int := 50

/-- Default `y_threshold` of `group_text_boxes` (line 43). -/
def y_threshold_default : Int := 90

/-- Default `font_threshold` of `group_text_boxes` (line 43). -/
def font_threshold_default : Int := 10

/-- Default `parag_y_threshold` of `check_paragraph` (line 86). -/
def parag_y_threshold_default : Int := 5

/-- Default `parag_x_threshold` of `check_paragraph` (line 86). -/
def parag_x_threshold_default : Int := 47

/-- Embedding of `merge_boxes` (lines 79-82): the merged box reads only
corners 0 and 2 of its inputs and emits the four corners
`[top_left, (xmax, ymin), bottom_right, (xmin, ymax)]`. -/
def merge_boxes (box1 box2 : Box) : Box :=
  let top_left : Int × Int := (min box1.p0.1 box2.p0.1, min box1.p0.2 box2.p0.2)
  let bottom_right : Int × Int := (max box1.p2.1 box2.p2.1, max box1.p2.2 box2.p2.2)
  ⟨top_left, (bottom_right.1, top_left.2), bottom_right, (top_left.1, bottom_right.2)⟩

/-- Embedding of `is_nearby` (lines 63-75). -/
def is_nearby (box1 box2 : Box) (xt yt ft : Int) : Bool :=
  let x_dist := |box1.p2.1 - box2.p0.1|
  let y_dist := |box1.p0.2 - box2.p0.2|
  let height1 := box1.p2.2 - box1.p0.2
  let height2 := box2.p2.2 - box2.p0.2
  let font_size_similar := decide (|height1 - height2| < ft)
  decide (x_dist < xt) && decide (y_dist < yt) && font_size_similar

/-- Embedding of `is_nearby_parag` (lines 110-115): compares the bottom-left
corner y of the paragraph box with the top-left corner y of the candidate
box, and the two top-left corner xs. -/
def is_nearby_parag (box1 box2 : Box) (pyt pxt : Int) : Bool :=
  decide (|box1.p3.2 - box2.p0.2| < pyt) && decide (|box1.p0.1 - box2.p0.1| < pxt)

/-- The sort comparison of `results.sort(key = lambda x: (x[0][0][1], x[0][0][0]))`
(line 47): lexicographic on the key tuple (top-left y, top-left x).
Python's `list.sort` is stable, as is `List.mergeSort`. -/
def detLe (a b : Detection) : Bool :=
  decide (a.box.p0.2 < b.box.p0.2 ∨ (a.box.p0.2 = b.box.p0.2 ∧ a.box.p0.1 ≤ b.box.p0.1))

/-- One iteration of the loop of `group_text_boxes` (lines 49-57): if the
accumulator is nonempty and the detection is near the last group, the last
group's text and box are updated in place, otherwise a fresh group is
appended. -/
def gtbStep (xt yt ft : Int) (acc : List TextGroup) (d : Detection) : List TextGroup :=
  match acc.getLast? with
  | some last =>
    if is_nearby last.box d.box xt yt ft then
      acc.dropLast ++ [⟨merge_boxes last.box d.box, last.text ++ " " ++ d.text⟩]
    else
      acc ++ [⟨d.box, d.text⟩]
  | none => acc ++ [⟨d.box, d.text⟩]

/-- Embedding of `group_text_boxes` (lines 43-59): sort the detections by
(top-left y, top-left x), then fold the grouping step over the sorted list.
Thresholds are passed explicitly; the Python defaults are the
`*_threshold_default` constants. -/
def group_text_boxes (results : List Detection) (xt yt ft : Int) : List TextGroup :=
  (results.mergeSort detLe).foldl (gtbStep xt yt ft) []

/-- Value of the caller's `results` list after `group_text_boxes` returns:
line 47 runs `results.sort(...)` in place, so the caller's list ends up
sorted; the detection tuples themselves are never written to. -/
def group_text_boxes_inputAfter (results : List Detection) : List Detection :=
  results.mergeSort detLe

/-- One iteration of the outer loop of `check_paragraph` (lines 90-104):
scan `boxes` for the first entry near the current group (the `enumerate`
loop with `break`), update it in place at its index, otherwise append the
group. The `delete` list built on line 98 is never read, so it is not
modelled. -/
def cpStep (pyt pxt : Int) (boxes : List TextGroup) (g : TextGroup) : List TextGroup :=
  match boxes.findIdx? (fun p => is_nearby_parag p.box g.box pyt pxt) with
  | some i =>
    match boxes[i]? with
    | some p => boxes.set i ⟨merge_boxes p.box g.box, p.text ++ " " ++ g.text⟩
    | none => boxes
  | none => boxes ++ [g]

/-- Embedding of `check_paragraph` (lines 86-106). Line 87 evaluates
`grouped_texts[0]`, which raises `IndexError` on an empty list: that raised
exception is `none`. Otherwise the output is seeded with the first group
and the scan-and-merge step is folded over the remaining groups. -/
def check_paragraph (grouped_texts : List TextGroup) (pyt pxt : Int) : Option (List TextGroup) :=
  match grouped_texts with
  | [] => none
  | g0 :: rest => some (rest.foldl (cpStep pyt pxt) [g0])

/-- Value of the caller's `grouped_texts` list after `check_paragraph`
returns: `boxes = [grouped_texts[0]]` (line 87) aliases the first input
element, and the in-place updates `boxes[i][1] += ...`, `boxes[i][0] = ...`
mutate that shared object whenever `i = 0`, so after the call the caller's
first element holds the final first output group; no other input element is
ever written to, and appended paragraph seeds are fresh lists. -/
def check_paragraph_inputAfter (grouped_texts : List TextGroup) (pyt pxt : Int) :
    List TextGroup :=
  match check_paragraph grouped_texts pyt pxt with
  | none => grouped_texts
  | some out =>
    match out.head? with
    | some b0 => grouped_texts.set 0 b0
    | none => grouped_texts

/-- Model of Python `str.lower()`: lower-case every character. -/
def pyLower (s : String) : String := ⟨s.data.map Char.toLower⟩

/-- The point-in-box test of `mouse_callback` (line 125):
`top_left[0] <= x <= bottom_right[0] and top_left[1] <= y <= bottom_right[1]`,
inclusive on all four sides, reading corners 0 and 2. -/
def box_contains (box : Box) (x y : Int) : Bool :=
  decide (box.p0.1 ≤ x ∧ x ≤ box.p2.1 ∧ box.p0.2 ≤ y ∧ y ≤ box.p2.2)

/-- Embedding of the loop of `mouse_callback` (lines 122-127): the list of
strings passed to `pyperclip.copy`, in call order. The loop has no `break`,
so every group whose box contains the click point contributes a copy of its
lower-cased text. -/
def mouse_callback_copies (results : List TextGroup) (x y : Int) : List String :=
  results.foldl
    (fun copies g => if box_contains g.box x y then copies ++ [pyLower g.text] else copies) []

/-- The clipboard contents once `mouse_callback` returns: each
`pyperclip.copy` overwrites the clipboard, so the last copied string wins;
`none` when no copy happened. -/
def clipboard_after_click (results : List TextGroup) (x y : Int) : Option String :=
  (mouse_callback_copies results x y).getLast?

/-- The whole pipeline as run by `main` (lines 140-142):
`check_paragraph(group_text_boxes(results))` with all thresholds at their
Python defaults. -/
def pipeline (results : List Detection) : Option (List TextGroup) :=
  check_paragraph
    (group_text_boxes results x_threshold_default y_threshold_default font_threshold_default)
    parag_y_threshold_default parag_x_threshold_default

/-! Spec-side vocabulary: the extent accessors of the design document
(`bounds`, `height`, edge names), defined on the four-corner representation
exactly as every reader in the program extracts them (corners 0 and 2, and
corner 3 for the bottom edge). -/

/-- Extent accessor `x_min`: the x of corner 0 (top-left). -/
def xmin (b : Box) : Int := b.p0.1

/-- Extent accessor `x_max`: the x of corner 2 (bottom-right). -/
def xmax (b : Box) : Int := b.p2.1

/-- Extent accessor `y_min`: the y of corner 0 (top-left). -/
def ymin (b : Box) : Int := b.p0.2

/-- Extent accessor `y_max`: the y of corner 2 (bottom-right). -/
def ymax (b : Box) : Int := b.p2.2

/-- Box height `y_max - y_min`, the font-size proxy of the design. -/
def height (b : Box) : Int := ymax b - ymin b

/-- The y of the bottom edge, read from corner 3 (bottom-left), as
`is_nearby_parag` does. -/
def bottom_edge_y (b : Box) : Int := b.p3.2

/-- The y of the top edge, read from corner 0 (top-left). -/
def top_edge_y (b : Box) : Int := b.p0.2

/-- The x of the left edge, read from corner 0 (top-left). -/
def left_edge_x (b : Box) : Int := b.p0.1

/-- A box is in the fixed winding order with an ordered extent: corner 1 is
(x_max, y_min), corner 3 is (x_min, y_max), and x_min le x_max,
y_min le y_max. -/
abbrev wellFormed (b : Box) : Prop :=
  b.p1 = (xmax b, ymin b) ∧ b.p3 = (xmin b, ymax b) ∧ xmin b ≤ xmax b ∧ ymin b ≤ ymax b

/-- The extent invariant of the data model, on corners 0 and 2 only:
x_min le x_max and y_min le y_max. -/
abbrev extentOrdered (b : Box) : Prop :=
  xmin b ≤ xmax b ∧ ymin b ≤ ymax b

/-- A point lies within or on the boundary of the extent of a box. -/
abbrev boxContainsPt (m : Box) (pt : Int × Int) : Prop :=
  xmin m ≤ pt.1 ∧ pt.1 ≤ xmax m ∧ ymin m ≤ pt.2 ∧ pt.2 ≤ ymax m

/-- Every one of the four corners of `b` lies within or on the boundary of
`m`. -/
abbrev containsCorners (m b : Box) : Prop :=
  boxContainsPt m b.p0 ∧ boxContainsPt m b.p1 ∧ boxContainsPt m b.p2 ∧ boxContainsPt m b.p3

/-- The nearby test of line grouping as the specification words it:
x-distance of the last group's x_max to the detection's x_min, y-distance
of the two y_min values, and similar heights, each strictly below its
threshold. -/
abbrev nearbyLineSpec (last : TextGroup) (d : Detection) (xt yt ft : Int) : Prop :=
  |xmax last.box - xmin d.box| < xt ∧ |ymin last.box - ymin d.box| < yt ∧
    |height last.box - height d.box| < ft

/-- Line grouping as the specification words it, carrying the group list in
reverse so that the most recently formed group is at the head: merge the
detection into the most recent group iff the nearby test passes, else open
a new group. -/
def groupLinesSpecAux (xt yt ft : Int) : List Detection → List TextGroup → List TextGroup
  | [], racc => racc.reverse
  | d :: ds, [] => groupLinesSpecAux xt yt ft ds [⟨d.box, d.text⟩]
  | d :: ds, last :: racc =>
    if nearbyLineSpec last d xt yt ft then
      groupLinesSpecAux xt yt ft ds
        (⟨merge_boxes last.box d.box, last.text ++ " " ++ d.text⟩ :: racc)
    else
      groupLinesSpecAux xt yt ft ds (⟨d.box, d.text⟩ :: last :: racc)

/-- Specification-side line grouping: sort by (top-left y, top-left x)
ascending, then group greedily against the most recently formed group. -/
def group_lines_spec (results : List Detection) (xt yt ft : Int) : List TextGroup :=
  groupLinesSpecAux xt yt ft (results.mergeSort detLe) []

/-- The nearby test of paragraph grouping as the specification words it. -/
abbrev nearbyParagSpec (p g : TextGroup) (pyt pxt : Int) : Prop :=
  |bottom_edge_y p.box - top_edge_y g.box| < pyt ∧
    |left_edge_x p.box - left_edge_x g.box| < pxt

/-- Paragraph-merge step as the specification words it: scan the output
list in order, merge the line group into the first paragraph that passes
the nearby-paragraph test (first match wins), append a new paragraph when
none does. -/
def mergeFirstMatch (pyt pxt : Int) (g : TextGroup) : List TextGroup → List TextGroup
  | [] => [g]
  | p :: ps =>
    if nearbyParagSpec p g pyt pxt then
      ⟨merge_boxes p.box g.box, p.text ++ " " ++ g.text⟩ :: ps
    else
      p :: mergeFirstMatch pyt pxt g ps

/-- The hit test as claimed: the first group in list order whose box
contains the point, its text lower-cased; nothing when no group contains
the point. -/
def hit_test_first (results : List TextGroup) (x y : Int) : Option String :=
  (results.find? (fun g => box_contains g.box x y)).map (fun g => pyLower g.text)

/-- Splitting a character list at every space, Python `"a b".split(" ")`
style: adjacent or leading separators produce empty words and the result is
never empty. Used to state word-count preservation. -/
def consHead (c : Char) : List (List Char) → List (List Char)
  | [] => [[c]]
  | w :: ws => (c :: w) :: ws

/-- Splitting a character list at every space character. -/
def splitWords : List Char → List (List Char)
  | [] => [[]]
  | c :: cs => if c = ' ' then [] :: splitWords cs else consHead c (splitWords cs)

/-- The words of a string: its character data split at spaces. -/
def pyWords (s : String) : List (List Char) := splitWords s.data

/-! Concrete fixtures used by scenario conjuncts, witnesses and
counterexamples. -/

/-- Scenario 1 fixture: detection "cafe", x extent 0-40, height 20. -/
def cafeDet : Detection := ⟨⟨(0, 0), (40, 0), (40, 20), (0, 20)⟩, "cafe"⟩

/-- Scenario 1 fixture: detection "latte", x extent 45-80, height 20. -/
def latteDet : Detection := ⟨⟨(45, 0), (80, 0), (80, 20), (45, 20)⟩, "latte"⟩

/-- A detection 200 pixels below `cafeDet`, used to exhibit the in-place
sort of the input list. -/
def belowDet : Detection := ⟨⟨(0, 200), (40, 200), (40, 220), (0, 220)⟩, "below"⟩

/-- Scenario 3 fixture: a line group at x = 10, y extent 0-10. -/
def lineG1 : TextGroup := ⟨⟨(10, 0), (60, 0), (60, 10), (10, 10)⟩, "first"⟩

/-- Scenario 3 fixture: a line group at x = 12 whose top edge is 3 pixels
below the bottom edge of `lineG1`. -/
def lineG2 : TextGroup := ⟨⟨(12, 13), (70, 13), (70, 23), (12, 23)⟩, "second"⟩

/-- Two overlapping groups around the origin, for the hit test. -/
def hitGA : TextGroup := ⟨⟨(0, 0), (40, 0), (40, 20), (0, 20)⟩, "Alpha"⟩

/-- Second overlapping group with the same box as `hitGA`. -/
def hitGB : TextGroup := ⟨⟨(0, 0), (40, 0), (40, 20), (0, 20)⟩, "Beta"⟩

/-- A box whose corners 0 and 2 span an ordered extent but whose corner 1
is far outside it. -/
def skewBox : Box := ⟨(0, 0), (999, 999), (40, 20), (0, 20)⟩

/-- A detection carrying `skewBox`. -/
def skewDet : Detection := ⟨skewBox, "skew"⟩

/-! Helper lemmas shared by the claim theorems. -/

/-- The boolean nearby test of the code agrees with the specification's
wording of it. -/
lemma is_nearby_eq_true_iff (box1 box2 : Box) (xt yt ft : Int) :
    is_nearby box1 box2 xt yt ft = true ↔
      |xmax box1 - xmin box2| < xt ∧ |ymin box1 - ymin box2| < yt ∧
        |height box1 - height box2| < ft := by
  simp [is_nearby, xmax, xmin, ymin, height, ymax, and_assoc]

/-- The boolean nearby-paragraph test of the code agrees with the
specification's wording of it. -/
lemma is_nearby_parag_eq_true_iff (box1 box2 : Box) (pyt pxt : Int) :
    is_nearby_parag box1 box2 pyt pxt = true ↔
      |bottom_edge_y box1 - top_edge_y box2| < pyt ∧
        |left_edge_x box1 - left_edge_x box2| < pxt := by
  simp [is_nearby_parag, bottom_edge_y, top_edge_y, left_edge_x]

/-- The sort comparison is transitive. -/
lemma detLe_trans (a b c : Detection) (hab : detLe a b = true) (hbc : detLe b c = true) :
    detLe a c = true := by
  simp only [detLe, decide_eq_true_eq] at *
  omega

/-- The sort comparison is total. -/
lemma detLe_total (a b : Detection) : (detLe a b || detLe b a) = true := by
  simp only [detLe, Bool.or_eq_true, decide_eq_true_eq]
  omega

/-- The fold of the code's grouping step, started from a reversed
accumulator, equals the specification-side recursion. -/
lemma gtb_foldl_eq_aux (xt yt ft : Int) :
    ∀ (ds : List Detection) (racc : List TextGroup),
      List.foldl (gtbStep xt yt ft) racc.reverse ds = groupLinesSpecAux xt yt ft ds racc := by
  intro ds
  induction ds with
  | nil => intro racc; rfl
  | cons d ds ih =>
    intro racc
    match racc with
    | [] =>
      simp only [List.foldl_cons, List.reverse_nil, groupLinesSpecAux, gtbStep,
        List.getLast?_nil, List.nil_append]
      have h1 := ih [⟨d.box, d.text⟩]
      simpa using h1
    | last :: racc' =>
      simp only [List.foldl_cons, List.reverse_cons, groupLinesSpecAux]
      by_cases h : nearbyLineSpec last d xt yt ft
      · have hb : is_nearby last.box d.box xt yt ft = true :=
          (is_nearby_eq_true_iff _ _ _ _ _).mpr h
        simp only [gtbStep, List.getLast?_concat, hb, if_true, List.dropLast_concat, if_pos h]
        have h1 := ih (⟨merge_boxes last.box d.box, last.text ++ " " ++ d.text⟩ :: racc')
        simpa using h1
      · have hb : is_nearby last.box d.box xt yt ft = false :=
          Bool.eq_false_iff.mpr (fun ht => h ((is_nearby_eq_true_iff _ _ _ _ _).mp ht))
        simp only [gtbStep, List.getLast?_concat, hb, Bool.false_eq_true, if_false, if_neg h]
        have h1 := ih (⟨d.box, d.text⟩ :: last :: racc')
        simp only [List.reverse_cons] at h1
        simpa [List.append_assoc] using h1

/-- The code's line grouping equals the specification-side line grouping. -/
lemma gtb_eq_spec (results : List Detection) (xt yt ft : Int) :
    group_text_boxes results xt yt ft = group_lines_spec results xt yt ft := by
  have h := gtb_foldl_eq_aux xt yt ft (results.mergeSort detLe) []
  simpa [group_text_boxes, group_lines_spec] using h

/-- The code's scan-and-set paragraph step equals the specification-side
first-match recursion. -/
lemma cpStep_eq_mergeFirstMatch (pyt pxt : Int) (g : TextGroup) :
    ∀ boxes : List TextGroup, cpStep pyt pxt boxes g = mergeFirstMatch pyt pxt g boxes := by
  intro boxes
  induction boxes with
  | nil => rfl
  | cons p ps ih =>
    by_cases h : nearbyParagSpec p g pyt pxt
    · have hb : is_nearby_parag p.box g.box pyt pxt = true :=
        (is_nearby_parag_eq_true_iff _ _ _ _).mpr h
      simp only [cpStep, mergeFirstMatch, List.findIdx?_cons, hb, if_true,
        List.getElem?_cons_zero, List.set_cons_zero, if_pos h]
    · have hb : is_nearby_parag p.box g.box pyt pxt = false :=
        Bool.eq_false_iff.mpr (fun ht => h ((is_nearby_parag_eq_true_iff _ _ _ _).mp ht))
      rw [mergeFirstMatch, if_neg h, ← ih]
      simp only [cpStep, List.findIdx?_cons, hb, Bool.false_eq_true, if_false,
        List.findIdx?_succ]
      cases hidx : ps.findIdx? (fun p => is_nearby_parag p.box g.box pyt pxt) with
      | some i =>
        simp only [Option.map_some, List.getElem?_cons_succ]
        cases hget : ps[i]? with
        | some q => simp [hget]
        | none => simp [hget]
      | none => simp

/-- The copy loop of `mouse_callback`, started from any accumulator, copies
exactly the lower-cased texts of the groups whose boxes contain the point,
in list order. -/
lemma mouse_copies_foldl_eq (x y : Int) :
    ∀ (results : List TextGroup) (acc : List String),
      results.foldl
          (fun copies g => if box_contains g.box x y then copies ++ [pyLower g.text] else copies)
          acc
        = acc ++ (results.filter (fun g => box_contains g.box x y)).map
            (fun g => pyLower g.text) := by
  intro results
  induction results with
  | nil => intro acc; simp
  | cons g gs ih =>
    intro acc
    cases hc : box_contains g.box x y with
    | true => simp [List.foldl_cons, hc, ih, List.filter_cons, List.append_assoc]
    | false => simp [List.foldl_cons, hc, ih, List.filter_cons]

/-- Splitting never yields an empty word list. -/
lemma splitWords_ne_nil : ∀ l : List Char, splitWords l ≠ [] := by
  intro l
  cases l with
  | nil => simp [splitWords]
  | cons c cs =>
    by_cases h : c = ' '
    · simp [splitWords, h]
    · simp only [splitWords, if_neg h]
      cases splitWords cs with
      | nil => simp [consHead]
      | cons w ws => simp [consHead]

/-- Prepending a character distributes over appending more words. -/
lemma consHead_append (c : Char) (l1 l2 : List (List Char)) (h : l1 ≠ []) :
    consHead c (l1 ++ l2) = consHead c l1 ++ l2 := by
  cases l1 with
  | nil => exact absurd rfl h
  | cons w ws => simp [consHead]

/-- Splitting at spaces distributes over joining with a single space. -/
lemma splitWords_append_space :
    ∀ l1 l2 : List Char, splitWords (l1 ++ ' ' :: l2) = splitWords l1 ++ splitWords l2 := by
  intro l1 l2
  induction l1 with
  | nil => simp [splitWords]
  | cons c cs ih =>
    rw [List.cons_append]
    by_cases h : c = ' '
    · rw [show splitWords (c :: (cs ++ ' ' :: l2)) = [] :: splitWords (cs ++ ' ' :: l2) from by
        simp [splitWords, h]]
      rw [show splitWords (c :: cs) = [] :: splitWords cs from by simp [splitWords, h]]
      rw [ih]
      rfl
    · rw [show splitWords (c :: (cs ++ ' ' :: l2))
          = consHead c (splitWords (cs ++ ' ' :: l2)) from by simp [splitWords, h]]
      rw [show splitWords (c :: cs) = consHead c (splitWords cs) from by simp [splitWords, h]]
      rw [ih]
      exact consHead_append c _ _ (splitWords_ne_nil cs)

/-- The words of a space-joined concatenation are the words of the parts. -/
lemma pyWords_append_space (s t : String) :
    pyWords (s ++ " " ++ t) = pyWords s ++ pyWords t := by
  have hd : (s ++ " " ++ t).data = s.data ++ ' ' :: t.data := by
    simp [String.data_append]
  rw [pyWords, hd, splitWords_append_space]
  rfl

/-- Word content of the groups built by the specification-side recursion:
the words of the accumulated groups followed by the words of the remaining
detections, in order. -/
lemma groupLinesSpecAux_words (xt yt ft : Int) :
    ∀ (ds : List Detection) (racc : List TextGroup),
      ((groupLinesSpecAux xt yt ft ds racc).map (fun g => pyWords g.text)).flatten
        = (racc.reverse.map (fun g => pyWords g.text)).flatten
            ++ (ds.map (fun d => pyWords d.text)).flatten := by
  intro ds
  induction ds with
  | nil => intro racc; simp [groupLinesSpecAux]
  | cons d ds ih =>
    intro racc
    match racc with
    | [] => simp [groupLinesSpecAux, ih]
    | last :: racc' =>
      by_cases h : nearbyLineSpec last d xt yt ft
      · rw [groupLinesSpecAux, if_pos h, ih]
        simp [pyWords_append_space, List.append_assoc]
      · rw [groupLinesSpecAux, if_neg h, ih]
        simp [List.append_assoc]

/-- Word content of the code's line grouping: exactly the words of the
sorted detections, in order. -/
lemma gtb_words (results : List Detection) (xt yt ft : Int) :
    ((group_text_boxes results xt yt ft).map (fun g => pyWords g.text)).flatten
      = ((results.mergeSort detLe).map (fun d => pyWords d.text)).flatten := by
  rw [gtb_eq_spec, group_lines_spec, groupLinesSpecAux_words]
  simp

/-- Merging preserves the extent invariant. -/
lemma extentOrdered_merge_boxes {a b : Box} (ha : extentOrdered a) (hb : extentOrdered b) :
    extentOrdered (merge_boxes a b) := by
  obtain ⟨ha1, ha2⟩ := ha
  obtain ⟨hb1, hb2⟩ := hb
  simp only [extentOrdered, merge_boxes, xmin, xmax, ymin, ymax] at *
  omega

/-- The merge of two well-formed boxes is well-formed. -/
lemma wellFormed_merge_boxes {a b : Box} (ha : extentOrdered a) (hb : extentOrdered b) :
    wellFormed (merge_boxes a b) := by
  obtain ⟨ha1, ha2⟩ := ha
  obtain ⟨hb1, hb2⟩ := hb
  simp only [extentOrdered, xmin, xmax, ymin, ymax] at ha1 ha2 hb1 hb2
  refine ⟨rfl, rfl, ?_, ?_⟩ <;>
    (simp only [merge_boxes, xmin, xmax, ymin, ymax]; omega)

/-- Every group built by the line-grouping fold has an ordered extent,
provided the seeds in the accumulator and all remaining detections do. -/
lemma gtb_foldl_extent (xt yt ft : Int) :
    ∀ (ds : List Detection) (acc : List TextGroup),
      (∀ g ∈ acc, extentOrdered g.box) → (∀ d ∈ ds, extentOrdered d.box) →
        ∀ g ∈ List.foldl (gtbStep xt yt ft) acc ds, extentOrdered g.box := by
  intro ds
  induction ds with
  | nil => intro acc hacc _ g hg; exact hacc g hg
  | cons d ds ih =>
    intro acc hacc hds
    simp only [List.foldl_cons]
    refine ih _ ?_ (fun d hd => hds d (List.mem_cons_of_mem _ hd))
    intro g hg
    cases hlast : acc.getLast? with
    | some last =>
      simp only [gtbStep, hlast] at hg
      by_cases hn : is_nearby last.box d.box xt yt ft
      · rw [if_pos hn] at hg
        rcases List.mem_append.mp hg with hmem | hmem
        · exact hacc g ((List.dropLast_sublist acc).subset hmem)
        · have : g = ⟨merge_boxes last.box d.box, last.text ++ " " ++ d.text⟩ := by
            simpa using hmem
          subst this
          exact extentOrdered_merge_boxes
            (hacc last (List.mem_of_getLast?_eq_some hlast))
            (hds d (List.mem_cons_self d ds))
      · rw [if_neg hn] at hg
        rcases List.mem_append.mp hg with hmem | hmem
        · exact hacc g hmem
        · have : g = ⟨d.box, d.text⟩ := by simpa using hmem
          subst this
          exact hds d (List.mem_cons_self d ds)
    | none =>
      simp only [gtbStep, hlast] at hg
      rcases List.mem_append.mp hg with hmem | hmem
      · exact hacc g hmem
      · have : g = ⟨d.box, d.text⟩ := by simpa using hmem
        subst this
        exact hds d (List.mem_cons_self d ds)

/-- Every group returned by the code's line grouping has an ordered extent,
provided every input detection does. -/
lemma gtb_extent (results : List Detection) (xt yt ft : Int)
    (h : ∀ d ∈ results, extentOrdered d.box) :
    ∀ g ∈ group_text_boxes results xt yt ft, extentOrdered g.box := by
  refine gtb_foldl_extent xt yt ft _ [] (by simp) ?_
  intro d hd
  exact h d ((List.mergeSort_perm results detLe).subset hd)

/-- Every group built by the paragraph fold has an ordered extent, provided
the seeds and all remaining groups do. -/
lemma cp_foldl_extent (pyt pxt : Int) :
    ∀ (gs : List TextGroup) (acc : List TextGroup),
      (∀ g ∈ acc, extentOrdered g.box) → (∀ g ∈ gs, extentOrdered g.box) →
        ∀ g ∈ List.foldl (cpStep pyt pxt) acc gs, extentOrdered g.box := by
  intro gs
  induction gs with
  | nil => intro acc hacc _ g hg; exact hacc g hg
  | cons q qs ih =>
    intro acc hacc hgs
    simp only [List.foldl_cons]
    refine ih _ ?_ (fun g hg => hgs g (List.mem_cons_of_mem _ hg))
    intro g hg
    cases hidx : acc.findIdx? (fun p => is_nearby_parag p.box q.box pyt pxt) with
    | some i =>
      simp only [cpStep, hidx] at hg
      cases hget : acc[i]? with
      | some p =>
        rw [hget] at hg
        rcases List.mem_or_eq_of_mem_set hg with hmem | heq
        · exact hacc g hmem
        · subst heq
          exact extentOrdered_merge_boxes
            (hacc p (List.getElem?_mem hget))
            (hgs q (List.mem_cons_self q qs))
      | none =>
        rw [hget] at hg
        exact hacc g hg
    | none =>
      simp only [cpStep, hidx] at hg
      rcases List.mem_append.mp hg with hmem | hmem
      · exact hacc g hmem
      · have hq : g = q := by simpa using hmem
        rw [hq]
        exact hgs q (List.mem_cons_self q qs)

/-- Every group returned by the code's paragraph grouping has an ordered
extent, provided every input group does. -/
lemma cp_extent (gs : List TextGroup) (pyt pxt : Int) (out : List TextGroup)
    (h : ∀ g ∈ gs, extentOrdered g.box) (hout : check_paragraph gs pyt pxt = some out) :
    ∀ g ∈ out, extentOrdered g.box := by
  match gs with
  | [] => simp [check_paragraph] at hout
  | g0 :: rest =>
    simp only [check_paragraph, Option.some.injEq] at hout
    subst hout
    refine cp_foldl_extent pyt pxt rest [g0] ?_ ?_
    · intro g hg
      have hq : g = g0 := by simpa using hg
      rw [hq]
      exact h g0 (List.mem_cons_self g0 rest)
    · intro g hg
      exact h g (List.mem_cons_of_mem _ hg)

/-! Claim theorems. -/

/-- C1: on the empty detection list, `group_text_boxes` returns the empty
list, but `check_paragraph` applied to that empty list does NOT return the
empty list: line 87 evaluates `grouped_texts[0]`, which raises `IndexError`
(modelled as `none`). This records the divergence between the code and the
claim at the failing input `[]`. -/
theorem C1_empty_input_behavior :
    group_text_boxes [] x_threshold_default y_threshold_default font_threshold_default = [] ∧
    check_paragraph
        (group_text_boxes [] x_threshold_default y_threshold_default font_threshold_default)
        parag_y_threshold_default parag_x_threshold_default = none := by
  constructor
  · simp [group_text_boxes]
  · simp [group_text_boxes, check_paragraph]

/-- C2 counterexample: with two overlapping groups both containing the
click point, the loop of `mouse_callback` (which has no break) copies both
texts; the clipboard ends holding the LAST matching group's lower-cased
text, not the first group's text as the claim states. -/
theorem C2_counterexample :
    mouse_callback_copies [hitGA, hitGB] 5 5 = ["alpha", "beta"] ∧
    clipboard_after_click [hitGA, hitGB] 5 5 = some "beta" ∧
    hit_test_first [hitGA, hitGB] 5 5 = some "alpha" ∧
    clipboard_after_click [hitGA, hitGB] 5 5 ≠ hit_test_first [hitGA, hitGB] 5 5 := by
  refine ⟨?_, ?_, ?_, ?_⟩ <;> decide

/-- C2 amended: `mouse_callback` copies, in list order, the lower-cased
text of EVERY group whose box contains the point (inclusive bounds on all
four sides), so the clipboard finally holds the last such group's
lower-cased text, and nothing is copied when no group's box contains the
point. -/
theorem C2_hit_test_behavior (results : List TextGroup) (x y : Int) :
    mouse_callback_copies results x y
        = (results.filter (fun g => box_contains g.box x y)).map (fun g => pyLower g.text) ∧
    clipboard_after_click results x y
        = ((results.filter (fun g => box_contains g.box x y)).getLast?).map
            (fun g => pyLower g.text) := by
  have h1 : mouse_callback_copies results x y
      = (results.filter (fun g => box_contains g.box x y)).map (fun g => pyLower g.text) := by
    rw [mouse_callback_copies, mouse_copies_foldl_eq]
    simp
  exact ⟨h1, by rw [clipboard_after_click, h1, List.getLast?_map]⟩

/-- C3 counterexample: the transformations are not free of side effects on
their inputs: `group_text_boxes` sorts the caller's list in place (the
input list is reordered), and `check_paragraph` mutates its first input
element in place when a later line merges into the first paragraph. -/
theorem C3_counterexample :
    group_text_boxes_inputAfter [belowDet, cafeDet] ≠ [belowDet, cafeDet] ∧
    check_paragraph_inputAfter [lineG1, lineG2] parag_y_threshold_default
        parag_x_threshold_default ≠ [lineG1, lineG2] := by
  constructor
  · rw [show group_text_boxes_inputAfter [belowDet, cafeDet] = [cafeDet, belowDet] from by
      simp [group_text_boxes_inputAfter, List.mergeSort, List.merge, detLe, belowDet, cafeDet]]
    decide
  · decide

/-- C3 amended: the only side effects on the inputs are that
`group_text_boxes` leaves its input list sorted — a permutation of the
original, with the detections themselves unmodified — and that
`check_paragraph` writes back only to its first input element (which is the
storage shared with the first returned paragraph group); every input
element other than the first is left unmodified. -/
theorem C3_input_effects :
    (∀ results : List Detection, (group_text_boxes_inputAfter results).Perm results) ∧
    (∀ (gs : List TextGroup) (pyt pxt : Int) (i : Nat), i ≠ 0 →
        (check_paragraph_inputAfter gs pyt pxt)[i]? = gs[i]?) := by
  constructor
  · intro results
    exact List.mergeSort_perm results detLe
  · intro gs pyt pxt i hi
    unfold check_paragraph_inputAfter
    cases hcp : check_paragraph gs pyt pxt with
    | none => simp
    | some out =>
      cases hh : out.head? with
      | none => simp [hh]
      | some b0 =>
        simp only [hh]
        exact List.getElem?_set_ne (Ne.symm hi)

/-- C3 witness: the amended statement applied at a concrete input and
index. -/
theorem C3_input_effects_witness :
    (1 : Nat) ≠ 0 ∧
      (check_paragraph_inputAfter [lineG1, lineG2] parag_y_threshold_default
          parag_x_threshold_default)[1]? = [lineG1, lineG2][1]? :=
  ⟨by decide,
    C3_input_effects.2 [lineG1, lineG2] parag_y_threshold_default parag_x_threshold_default 1
      (by decide)⟩

/-- C4: line grouping first sorts by (top-left y, top-left x) ascending
(the sorted list is a permutation of the input, pairwise ordered under the
sort key), then merges each detection into the last group exactly when the
x-gap, y-gap and font-size tests all pass, as stated; and the two
same-line detections of Scenario 1 merge under the default thresholds
(50, 90, 10) into one group with text "cafe latte" spanning x = 0..80. -/
theorem C4_line_grouping :
    (∀ (results : List Detection) (xt yt ft : Int),
        group_text_boxes results xt yt ft = group_lines_spec results xt yt ft) ∧
    (∀ results : List Detection,
        (results.mergeSort detLe).Perm results ∧
          List.Pairwise (fun a b => detLe a b = true) (results.mergeSort detLe)) ∧
    x_threshold_default = 50 ∧ y_threshold_default = 90 ∧ font_threshold_default = 10 ∧
    group_text_boxes [latteDet, cafeDet] x_threshold_default y_threshold_default
        font_threshold_default
      = [⟨⟨(0, 0), (80, 0), (80, 20), (0, 20)⟩, "cafe latte"⟩] := by
  refine ⟨fun results xt yt ft => gtb_eq_spec results xt yt ft, ?_, rfl, rfl, rfl, ?_⟩
  · intro results
    exact ⟨List.mergeSort_perm results detLe,
      List.sorted_mergeSort detLe_trans detLe_total results⟩
  · simp [group_text_boxes, List.mergeSort, List.merge, detLe, cafeDet, latteDet,
      gtbStep, is_nearby, merge_boxes, x_threshold_default, y_threshold_default,
      font_threshold_default]

/-- C5: paragraph grouping seeds its output with the first line group and
folds each later group in by merging it into the first matching paragraph
in output order (first match wins), appending it as a new paragraph when
none matches; the default thresholds are 5 and 47, and the two aligned
line groups of Scenario 3 (x = 10 and x = 12, 3 pixels apart vertically)
merge into one paragraph. -/
theorem C5_paragraph_grouping :
    (∀ (pyt pxt : Int) (g0 : TextGroup) (rest : List TextGroup),
        check_paragraph (g0 :: rest) pyt pxt
          = some (rest.foldl (fun bs g => mergeFirstMatch pyt pxt g bs) [g0])) ∧
    parag_y_threshold_default = 5 ∧ parag_x_threshold_default = 47 ∧
    check_paragraph [lineG1, lineG2] parag_y_threshold_default parag_x_threshold_default
      = some [⟨⟨(10, 0), (70, 0), (70, 23), (10, 23)⟩, "first second"⟩] := by
  refine ⟨?_, rfl, rfl, by decide⟩
  intro pyt pxt g0 rest
  simp only [check_paragraph, Option.some.injEq]
  have h : cpStep pyt pxt = fun bs g => mergeFirstMatch pyt pxt g bs := by
    funext bs g
    exact cpStep_eq_mergeFirstMatch pyt pxt g bs
  rw [h]

/-- C6 counterexample: `merge_boxes` reads only corners 0 and 2 of its
inputs, so for a box whose corner 1 lies far outside its 0/2 extent the
merged box does not contain that corner; containment fails for arbitrary
four-corner inputs. -/
theorem C6_counterexample :
    ¬ containsCorners (merge_boxes skewBox skewBox) skewBox := by
  decide

/-- C6 amended: for boxes in the fixed winding order with an ordered extent
(as all producers in the program emit), the merged box contains every
corner of both inputs. -/
theorem C6_merge_containment (a b : Box) (ha : wellFormed a) (hb : wellFormed b) :
    containsCorners (merge_boxes a b) a ∧ containsCorners (merge_boxes a b) b := by
  obtain ⟨ha1, ha3, hax, hay⟩ := ha
  obtain ⟨hb1, hb3, hbx, hby⟩ := hb
  simp only [xmin, xmax, ymin, ymax] at ha1 ha3 hax hay hb1 hb3 hbx hby
  refine ⟨⟨?_, ?_, ?_, ?_⟩, ⟨?_, ?_, ?_, ?_⟩⟩ <;>
    simp [boxContainsPt, merge_boxes, xmin, xmax, ymin, ymax, ha1, ha3, hb1, hb3] <;>
    omega

/-- C6 witness: containment of both inputs at two concrete well-formed
boxes. -/
theorem C6_merge_containment_witness :
    wellFormed cafeDet.box ∧ wellFormed latteDet.box ∧
      (containsCorners (merge_boxes cafeDet.box latteDet.box) cafeDet.box ∧
        containsCorners (merge_boxes cafeDet.box latteDet.box) latteDet.box) :=
  ⟨by decide, by decide,
    C6_merge_containment cafeDet.box latteDet.box (by decide) (by decide)⟩

/-- C7: merging boxes is commutative and associative, so the merged extent
is independent of merge order. -/
theorem C7_merge_comm_assoc (a b c : Box) :
    merge_boxes a b = merge_boxes b a ∧
      merge_boxes (merge_boxes a b) c = merge_boxes a (merge_boxes b c) := by
  constructor <;>
    simp [merge_boxes, Box.mk.injEq, Prod.ext_iff] <;>
    omega

/-- C8: line grouping never loses or duplicates a word: the words of the
output groups' texts, in order, are a permutation of the words of the input
detections' texts (equal per group to the space-joined concatenation in
merge order). -/
theorem C8_word_preservation (results : List Detection) (xt yt ft : Int) :
    (((group_text_boxes results xt yt ft).map (fun g => pyWords g.text)).flatten).Perm
      ((results.map (fun d => pyWords d.text)).flatten) := by
  rw [gtb_words]
  exact ((List.mergeSort_perm results detLe).map (fun d => pyWords d.text)).flatten

/-- C9: the pipeline `check_paragraph` after `group_text_boxes` (with the
default thresholds, as `main` runs it) is deterministic: equal inputs give
equal outputs. -/
theorem C9_pipeline_deterministic (r1 r2 : List Detection) (h : r1 = r2) :
    pipeline r1 = pipeline r2 := by
  rw [h]

/-- C9 witness: determinism applied at a concrete input. -/
theorem C9_pipeline_deterministic_witness :
    [cafeDet] = [cafeDet] ∧ pipeline [cafeDet] = pipeline [cafeDet] :=
  ⟨rfl, C9_pipeline_deterministic [cafeDet] [cafeDet] rfl⟩

/-- C10 counterexample: a detection whose corner 1 lies outside its 0/2
extent is passed through line grouping unchanged when it never merges, so
the group holds a box that is NOT a well-formed axis-aligned rectangle,
although the input satisfied the 0/2-corner extent invariant. -/
theorem C10_counterexample :
    extentOrdered skewBox ∧
    group_text_boxes [skewDet] x_threshold_default y_threshold_default font_threshold_default
        = [⟨skewBox, "skew"⟩] ∧
    ¬ wellFormed skewBox := by
  refine ⟨by decide, ?_, by decide⟩
  simp [group_text_boxes, List.mergeSort, gtbStep, skewDet]

/-- C10 amended: `merge_boxes` emits corner 1 as (x_max, y_min) and corner
3 as (x_min, y_max) of the result, reads only corners 0 and 2 of its
inputs, and sends inputs with ordered extents to a well-formed box; and the
0/2-corner extent invariant is preserved through line grouping and
paragraph grouping; but a group whose box never merged keeps the input's
corners 1 and 3 verbatim. -/
theorem C10_winding_and_invariant :
    (∀ a b : Box,
        (merge_boxes a b).p1 = (xmax (merge_boxes a b), ymin (merge_boxes a b)) ∧
          (merge_boxes a b).p3 = (xmin (merge_boxes a b), ymax (merge_boxes a b))) ∧
    (∀ a b a2 b2 : Box, a.p0 = a2.p0 → a.p2 = a2.p2 → b.p0 = b2.p0 → b.p2 = b2.p2 →
        merge_boxes a b = merge_boxes a2 b2) ∧
    (∀ a b : Box, extentOrdered a → extentOrdered b → wellFormed (merge_boxes a b)) ∧
    (∀ (results : List Detection) (xt yt ft : Int),
        (∀ d ∈ results, extentOrdered d.box) →
          ∀ g ∈ group_text_boxes results xt yt ft, extentOrdered g.box) ∧
    (∀ (gs : List TextGroup) (pyt pxt : Int) (out : List TextGroup),
        (∀ g ∈ gs, extentOrdered g.box) → check_paragraph gs pyt pxt = some out →
          ∀ g ∈ out, extentOrdered g.box) := by
  refine ⟨fun a b => ⟨rfl, rfl⟩, ?_, ?_, ?_, ?_⟩
  · intro a b a2 b2 h0 h2 k0 k2
    simp [merge_boxes, h0, h2, k0, k2]
  · intro a b ha hb
    exact wellFormed_merge_boxes ha hb
  · intro results xt yt ft h
    exact gtb_extent results xt yt ft h
  · intro gs pyt pxt out h hout
    exact cp_extent gs pyt pxt out h hout

/-- C10 witness: the well-formedness of a concrete merge and the invariant
on a concrete run. -/
theorem C10_winding_and_invariant_witness :
    extentOrdered cafeDet.box ∧ extentOrdered latteDet.box ∧
      wellFormed (merge_boxes cafeDet.box latteDet.box) :=
  ⟨by decide, by decide,
    C10_winding_and_invariant.2.2.1 cafeDet.box latteDet.box (by decide) (by decide)⟩

end Project1
